import Mathlib

/-!
# Two-tier cache facade (`redis_cache.go`)

A shallow embedding of `RedisCache` and its operations `getMutex`, `Get`, `Set`, `set`,
`load` and `Delete`.

* The Local Cache (`MemCache`), the Remote Store helpers (`RedisGetString`, `RedisSetString`,
  `RedisDelKey`), the codec (`json.Marshal`, `json.Unmarshal`), `NewItem` and `clone` are
  declared outside `redis_cache.go`; they are taken as parameters, collected in `Deps`.
* The state of the Local Cache is a value of an arbitrary type `M`, the state of the Remote
  Store a value of an arbitrary type `R`.
* Every call the source makes to a collaborator is recorded, in program order, in a ghost
  `log`; the log is never read by the operations.
* A `*sync.RWMutex` is represented by its identity, a natural number; `new(sync.RWMutex)`
  takes the next unused identity.
* `int64` values are integers; the one subtraction of the source is wrapped to 64 bits.
-/

namespace Cache

/-! ## Data model -/

/-- Item is the cached value envelope. Its declaration is outside `redis_cache.go`; the fields
are the ones the source and the data model name: `Object`, `Expiration` (an `int64`, subtracted
from `time.Now().UnixNano()` in `set`) and `Lazy`. -/
structure Item (Obj : Type) where
  Object : Obj
  Expiration : Int
  Lazy : Bool
  deriving DecidableEq, Repr

/-- The least `int64`. -/
def minInt64 : Int := -9223372036854775808

/-- The greatest `int64`. -/
def maxInt64 : Int := 9223372036854775807

/-- Membership in the `int64` range. -/
def isInt64 (x : Int) : Prop := minInt64 ≤ x ∧ x ≤ maxInt64

instance decIsInt64 (x : Int) : Decidable (isInt64 x) := by
  unfold isInt64; exact inferInstance

/-- Two's-complement reduction of an integer to `int64`, the result of Go's `int64`
arithmetic on overflow. -/
def wrapInt64 (x : Int) : Int := (x + 9223372036854775808) % 18446744073709551616 - 9223372036854775808

/-- The constant `int64(time.Second)`: nanoseconds in a second. -/
def Second : Int := 1000000000

/-- One call made by the facade to a collaborator, in the order of the source. -/
inductive Event (Obj Err : Type) where
  | Lock (mux : Nat)
  | Unlock (mux : Nat)
  | RLock (mux : Nat)
  | RUnlock (mux : Nat)
  | UpToDate (key : String)
  | memSet (key : String) (it : Item Obj)
  | RedisGetString (key : String)
  | RedisSetString (key : String) (value : String) (ttl : Int)
  | RedisDelKey (keyPattern : String)
  | LoadFunc
  | clone (src : Obj)
  deriving DecidableEq, Repr

/-- The collaborators of the facade, all declared outside `redis_cache.go`.

* `ErrNil` is `redis.ErrNil`.
* `UpToDate m key` is `c.mem.UpToDate(key)`: `some v` stands for `(v, true)`, `none` for a
  result whose flag is `false` (its first component is not used by the source then).
* `memSet m key it` is the Local Cache after `c.mem.Set(key, it)`.
* `RedisGetString r key` is the pair `(body, err)`; `err = none` stands for `nil`.
* `RedisSetString r key value ttl` and `RedisDelKey r keyPattern` give the Remote Store after
  the call and the returned error.
* `Marshal it` is the pair returned by `json.Marshal(it)`, as a string and an error.
* `Unmarshal body it` is `json.Unmarshal([]byte(body), &it)`: the item after the call and the
  returned error.
* `NewItem o ttl lazy` is `NewItem(o, ttl, lazy)`.
* `clone src dst` is the content of the destination object after `clone(src, dst)`. -/
structure Deps (Obj Err M R : Type) where
  ErrNil : Err
  UpToDate : M → String → Option (Item Obj)
  memSet : M → String → Item Obj → M
  RedisGetString : R → String → String × Option Err
  RedisSetString : R → String → String → Int → R × Option Err
  RedisDelKey : R → String → R × Option Err
  Marshal : Item Obj → String × Option Err
  Unmarshal : String → Item Obj → Item Obj × Option Err
  NewItem : Obj → Int → Bool → Item Obj
  clone : Obj → Obj → Obj

/-- The type `LoadFunc`: a function without arguments returning a value and an error. -/
abbrev LoadFunc (Obj Err : Type) : Type := Unit → Obj × Option Err

/-- The struct `RedisCache`. `pool` holds the state of the Remote Store reached through the
pool, `muxm` the `sync.Map` from key to mutex, `mem` the state of the Local Cache. `fresh`
(the next unused mutex identity) and `log` (the calls made so far) are ghost fields. -/
structure RedisCache (Obj Err M R : Type) where
  pool : R
  muxm : List (String × Nat)
  mem : M
  fresh : Nat
  log : List (Event Obj Err)

variable {Obj Err M R : Type}

/-- The constructor `NewRedisCache(p, m)`: an empty mutex map. -/
def NewRedisCache (p : R) (m : M) : RedisCache Obj Err M R :=
  { pool := p, muxm := [], mem := m, fresh := 0, log := [] }

/-- The method `sync.Map.LoadOrStore(key, value)`: the existing value and `true` if the key is
present, otherwise the given value is stored and returned with `false`. -/
def LoadOrStore (m : List (String × Nat)) (key : String) (value : Nat) :
    List (String × Nat) × Nat × Bool :=
  match m.lookup key with
  | some actual => (m, actual, true)
  | none => ((key, value) :: m, value, false)

namespace RedisCache

/-- Record a call in the ghost log. -/
def emit (c : RedisCache Obj Err M R) (e : Event Obj Err) : RedisCache Obj Err M R :=
  { c with log := c.log ++ [e] }

/-- The method `getMutex(key)`: allocate `nMux`, then keep the mutex `LoadOrStore` returns if the
key was present and `nMux` otherwise. -/
def getMutex (c : RedisCache Obj Err M R) (key : String) : Nat × RedisCache Obj Err M R :=
  let nMux := c.fresh
  let r := LoadOrStore c.muxm key nMux
  if r.2.2 then (r.2.1, { c with muxm := r.1, fresh := c.fresh + 1 })
  else (nMux, { c with muxm := r.1, fresh := c.fresh + 1 })

/-- The body of `Get` between `mux.RLock()` and the deferred `mux.RUnlock()`. The result is the
pair `(*Item, bool)`, `none` standing for `nil`. -/
def GetLocked [DecidableEq Err] (d : Deps Obj Err M R) (c : RedisCache Obj Err M R)
    (key : String) (obj : Obj) : (Option (Item Obj) × Bool) × RedisCache Obj Err M R :=
  let c1 := c.emit (.UpToDate key)
  match d.UpToDate c1.mem key with
  | some v => ((some v, true), c1)
  | none =>
    let r := d.RedisGetString c1.pool key
    let c2 := c1.emit (.RedisGetString key)
    if r.2 ≠ none ∧ r.2 ≠ some d.ErrNil then ((none, false), c2)
    else if r.1 = "" then ((none, false), c2)
    else
      let u := d.Unmarshal r.1 { Object := obj, Expiration := 0, Lazy := false }
      if u.2 ≠ none then ((none, false), c2)
      else ((some u.1, true), ({ c2 with mem := d.memSet c2.mem key u.1 }).emit (.memSet key u.1))

/-- The method `Get(key, obj)`. -/
def Get [DecidableEq Err] (d : Deps Obj Err M R) (c : RedisCache Obj Err M R)
    (key : String) (obj : Obj) : (Option (Item Obj) × Bool) × RedisCache Obj Err M R :=
  let g := c.getMutex key
  let r := GetLocked d (g.2.emit (.RLock g.1)) key obj
  (r.1, r.2.emit (.RUnlock g.1))

/-- The method `set(key, it)`, `now` being the value of `time.Now().UnixNano()`. The `int64`
subtraction wraps, the `int64` division truncates toward zero, and `int(ttl)` keeps the value
(`int` has 64 bits). The error of `json.Marshal` is dropped. -/
def set (d : Deps Obj Err M R) (now : Int) (c : RedisCache Obj Err M R)
    (key : String) (it : Item Obj) : Option Err × RedisCache Obj Err M R :=
  let ttl := Int.tdiv (wrapInt64 (it.Expiration - now)) Second
  let bs := (d.Marshal it).1
  let w := d.RedisSetString c.pool key bs ttl
  (w.2, ({ c with pool := w.1 }).emit (.RedisSetString key bs ttl))

/-- The method `Set(key, it)`: it has no result, the value of `c.set(key, it)` is dropped. -/
def Set (d : Deps Obj Err M R) (now : Int) (c : RedisCache Obj Err M R)
    (key : String) (it : Item Obj) : RedisCache Obj Err M R :=
  let g := c.getMutex key
  let r := set d now (g.2.emit (.Lock g.1)) key it
  r.2.emit (.Unlock g.1)

/-- The body of `load` between `mux.Lock()` and the deferred `mux.Unlock()`. The result is the
returned error (`none` for `nil`) and the content of the destination object `obj` on return. -/
def loadLocked (d : Deps Obj Err M R) (now : Int) (c : RedisCache Obj Err M R)
    (key : String) (obj : Obj) (ttl : Int) (lazy : Bool) (f : LoadFunc Obj Err) (sync : Bool) :
    (Option Err × Obj) × RedisCache Obj Err M R :=
  let c1 := c.emit (.UpToDate key)
  match d.UpToDate c1.mem key with
  | some it =>
    if sync then ((none, d.clone it.Object obj), c1.emit (.clone it.Object))
    else ((none, obj), c1)
  | none =>
    let r := f ()
    let c2 := c1.emit .LoadFunc
    match r.2 with
    | some err => ((some err, obj), c2)
    | none =>
      let o := r.1
      let obj1 := if sync then d.clone o obj else obj
      let c3 := if sync then c2.emit (.clone o) else c2
      let it := d.NewItem o ttl lazy
      let w := set d now c3 key it
      match w.1 with
      | some err => ((some err, obj1), w.2)
      | none => ((none, obj1), ({ w.2 with mem := d.memSet w.2.mem key it }).emit (.memSet key it))

/-- The method `load(key, obj, ttl, lazy, f, sync)`. -/
def load (d : Deps Obj Err M R) (now : Int) (c : RedisCache Obj Err M R)
    (key : String) (obj : Obj) (ttl : Int) (lazy : Bool) (f : LoadFunc Obj Err) (sync : Bool) :
    (Option Err × Obj) × RedisCache Obj Err M R :=
  let g := c.getMutex key
  let r := loadLocked d now (g.2.emit (.Lock g.1)) key obj ttl lazy f sync
  (r.1, r.2.emit (.Unlock g.1))

/-- The method `Delete(keyPattern)`. -/
def Delete (d : Deps Obj Err M R) (c : RedisCache Obj Err M R) (keyPattern : String) :
    Option Err × RedisCache Obj Err M R :=
  let w := d.RedisDelKey c.pool keyPattern
  (w.2, ({ c with pool := w.1 }).emit (.RedisDelKey keyPattern))

/-- The calls recorded between the state `c` and the later state `c2`. -/
def callsSince (c c2 : RedisCache Obj Err M R) : List (Event Obj Err) :=
  c2.log.drop c.log.length

/-- One call of a method of the facade, with its arguments (and, for `Set` and `load`, the value
`now` of the clock read by `set`). -/
inductive Op (Obj Err : Type) where
  | getMutex (key : String)
  | Get (key : String) (obj : Obj)
  | Set (now : Int) (key : String) (it : Item Obj)
  | load (now : Int) (key : String) (obj : Obj) (ttl : Int) (lazy : Bool)
      (f : LoadFunc Obj Err) (sync : Bool)
  | Delete (keyPattern : String)

/-- The state of the facade after one call. -/
def step [DecidableEq Err] (d : Deps Obj Err M R) (c : RedisCache Obj Err M R) :
    Op Obj Err → RedisCache Obj Err M R
  | .getMutex key => (c.getMutex key).2
  | .Get key obj => (c.Get d key obj).2
  | .Set now key it => c.Set d now key it
  | .load now key obj ttl lazy f sync => (c.load d now key obj ttl lazy f sync).2
  | .Delete keyPattern => (c.Delete d keyPattern).2

/-- The state of the facade after a sequence of calls, one after the other. -/
def run [DecidableEq Err] (d : Deps Obj Err M R) (c : RedisCache Obj Err M R)
    (ops : List (Op Obj Err)) : RedisCache Obj Err M R :=
  ops.foldl (step d) c

/-- The invariant of the mutex map: every registered mutex was allocated before (its identity
is below `fresh`), and no mutex is registered under two keys. -/
def RegistryInv (c : RedisCache Obj Err M R) : Prop :=
  (∀ k x, c.muxm.lookup k = some x → x < c.fresh) ∧
  (∀ k1 k2 x, c.muxm.lookup k1 = some x → c.muxm.lookup k2 = some x → k1 = k2)

end RedisCache

/-! ## A concrete instance of the collaborators -/

/-- An Item with payload `7` expiring five seconds after the epoch. -/
def sampleItem : Item Nat := { Object := 7, Expiration := 5000000000, Lazy := false }

/-- Collaborators over association lists: every entry stored in the Local Cache is up to date,
the Remote Store keeps the last string written under each key and answers `redis.ErrNil` with
the empty string for a missing key, the codec encodes `sampleItem` alone, `NewItem` reads a
clock standing at the epoch and `clone` overwrites the destination. -/
def listDeps : Deps Nat String (List (String × Item Nat)) (List (String × String)) where
  ErrNil := "redigo: nil returned"
  UpToDate m key := m.lookup key
  memSet m key it := (key, it) :: m
  RedisGetString r key :=
    match r.lookup key with
    | some value => (value, none)
    | none => ("", some "redigo: nil returned")
  RedisSetString r key value _ := ((key, value) :: r, none)
  RedisDelKey r keyPattern := (r.filter (fun kv => kv.1 != keyPattern), none)
  Marshal it := if it = sampleItem then ("a", none) else ("", some "json: unsupported value")
  Unmarshal body it := if body = "a" then (sampleItem, none) else (it, some "json: syntax error")
  NewItem o ttl lazy := { Object := o, Expiration := ttl * Second, Lazy := lazy }
  clone src _ := src

/-- The collaborators of `listDeps` with a Remote Store that cannot be reached: every read,
write and delete fails and leaves the store as it was. -/
def downDeps : Deps Nat String (List (String × Item Nat)) (List (String × String)) :=
  { listDeps with
    RedisSetString := fun r _ _ _ => (r, some "dial tcp: connection refused")
    RedisGetString := fun _ _ => ("", some "dial tcp: connection refused")
    RedisDelKey := fun r _ => (r, some "dial tcp: connection refused") }

/-- A facade on an empty Local Cache and an empty Remote Store. -/
def emptyCache : RedisCache Nat String (List (String × Item Nat)) (List (String × String)) :=
  NewRedisCache [] []

/-- A facade whose Local Cache holds an up-to-date entry for the key `k`. -/
def warmCache : RedisCache Nat String (List (String × Item Nat)) (List (String × String)) :=
  NewRedisCache [] [("k", sampleItem)]

/-- A load function that succeeds with the value `7`. -/
def loadSeven : LoadFunc Nat String := fun _ => (7, none)

/-- A load function that fails. -/
def loadFails : LoadFunc Nat String := fun _ => (0, some "backend down")

/-! ## Basic facts -/

namespace RedisCache

@[simp]
theorem getMutex_pool (c : RedisCache Obj Err M R) (key : String) :
    (c.getMutex key).2.pool = c.pool := by
  simp only [getMutex]; split <;> rfl

@[simp]
theorem getMutex_mem (c : RedisCache Obj Err M R) (key : String) :
    (c.getMutex key).2.mem = c.mem := by
  simp only [getMutex]; split <;> rfl

@[simp]
theorem getMutex_log (c : RedisCache Obj Err M R) (key : String) :
    (c.getMutex key).2.log = c.log := by
  simp only [getMutex]; split <;> rfl

theorem callsSince_of_log_eq (c c2 : RedisCache Obj Err M R) (l : List (Event Obj Err))
    (h : c2.log = c.log ++ l) : callsSince c c2 = l := by
  simp [callsSince, h]

/-! ## `load` -/

/-- C1. When the Local Cache has no up-to-date entry for the key and the load function returns
the error `e`, `load` returns `e`, leaves the destination object, the Remote Store and the Local
Cache as they were, and the calls it makes are exactly: lock, `UpToDate`, the load function,
unlock; so there is neither a `RedisSetString` nor a `mem.Set` call. -/
theorem load_loadFunc_error (d : Deps Obj Err M R) (now : Int) (c : RedisCache Obj Err M R)
    (key : String) (obj : Obj) (ttl : Int) (lazy : Bool) (f : LoadFunc Obj Err) (sync : Bool)
    (e : Err) (hmem : d.UpToDate c.mem key = none) (hf : (f ()).2 = some e) :
    (c.load d now key obj ttl lazy f sync).1 = (some e, obj) ∧
    (c.load d now key obj ttl lazy f sync).2.pool = c.pool ∧
    (c.load d now key obj ttl lazy f sync).2.mem = c.mem ∧
    callsSince c (c.load d now key obj ttl lazy f sync).2 =
      [.Lock (c.getMutex key).1, .UpToDate key, .LoadFunc, .Unlock (c.getMutex key).1] ∧
    (∀ k v t, Event.RedisSetString k v t ∉ callsSince c (c.load d now key obj ttl lazy f sync).2) ∧
    (∀ k it, Event.memSet k it ∉ callsSince c (c.load d now key obj ttl lazy f sync).2) := by
  have hlog : (c.load d now key obj ttl lazy f sync).2.log =
      c.log ++ [.Lock (c.getMutex key).1, .UpToDate key, .LoadFunc, .Unlock (c.getMutex key).1] := by
    simp [load, loadLocked, emit, hmem, hf]
  have hcalls := callsSince_of_log_eq c _ _ hlog
  refine ⟨?_, ?_, ?_, hcalls, ?_, ?_⟩
  · simp [load, loadLocked, emit, hmem, hf]
  · simp [load, loadLocked, emit, hmem, hf]
  · simp [load, loadLocked, emit, hmem, hf]
  · intro k v t; rw [hcalls]; simp
  · intro k it; rw [hcalls]; simp

/-- C2. When the Local Cache is not up to date and the load function succeeds with `o`, `load`
writes the new Item to the Remote Store. If that write returns the error `e`, `load` returns `e`,
the Local Cache is unchanged and no `mem.Set` is called. If that write succeeds, `load` returns
`nil` and the Local Cache is the old one after `mem.Set(key, it)` for the very Item `it` whose
encoding was written; the `mem.Set` call comes after the `RedisSetString` call. -/
theorem load_write_through (d : Deps Obj Err M R) (now : Int) (c : RedisCache Obj Err M R)
    (key : String) (obj : Obj) (ttl : Int) (lazy : Bool) (f : LoadFunc Obj Err) (sync : Bool)
    (o : Obj) (hmem : d.UpToDate c.mem key = none) (hf : f () = (o, none)) :
    let it := d.NewItem o ttl lazy
    let value := (d.Marshal it).1
    let secs := Int.tdiv (wrapInt64 (it.Expiration - now)) Second
    let w := d.RedisSetString c.pool key value secs
    let r := c.load d now key obj ttl lazy f sync
    let m := (c.getMutex key).1
    let pre : List (Event Obj Err) :=
      [.Lock m, .UpToDate key, .LoadFunc] ++ (if sync then [.clone o] else [])
    r.2.pool = w.1 ∧
    (∀ e, w.2 = some e →
      r.1.1 = some e ∧ r.2.mem = c.mem ∧
      callsSince c r.2 = pre ++ [.RedisSetString key value secs, .Unlock m] ∧
      ∀ k x, Event.memSet k x ∉ callsSince c r.2) ∧
    (w.2 = none →
      r.1.1 = none ∧ r.2.mem = d.memSet c.mem key it ∧
      callsSince c r.2 = pre ++ [.RedisSetString key value secs, .memSet key it, .Unlock m]) := by
  intro it value secs w r m pre
  refine ⟨?_, ?_, ?_⟩
  · cases sync <;> cases hw : w.2 <;>
      simp [r, load, loadLocked, set, emit, hmem, hf, it, value, secs, w] at hw ⊢ <;> simp [hw]
  · intro e he
    have hlog : r.2.log = c.log ++ (pre ++ [.RedisSetString key value secs, .Unlock m]) := by
      cases sync <;>
        simp [r, load, loadLocked, set, emit, hmem, hf, it, value, secs, w, pre, m] at he ⊢ <;>
        simp [he]
    have hcalls := callsSince_of_log_eq c _ _ hlog
    refine ⟨?_, ?_, hcalls, ?_⟩
    · cases sync <;>
        simp [r, load, loadLocked, set, emit, hmem, hf, it, value, secs, w] at he ⊢ <;> simp [he]
    · cases sync <;>
        simp [r, load, loadLocked, set, emit, hmem, hf, it, value, secs, w] at he ⊢ <;> simp [he]
    · intro k x; rw [hcalls]; cases sync <;> simp [pre]
  · intro he
    have hlog : r.2.log =
        c.log ++ (pre ++ [.RedisSetString key value secs, .memSet key it, .Unlock m]) := by
      cases sync <;>
        simp [r, load, loadLocked, set, emit, hmem, hf, it, value, secs, w, pre, m] at he ⊢ <;>
        simp [he]
    refine ⟨?_, ?_, callsSince_of_log_eq c _ _ hlog⟩
    · cases sync <;>
        simp [r, load, loadLocked, set, emit, hmem, hf, it, value, secs, w] at he ⊢ <;> simp [he]
    · cases sync <;>
        simp [r, load, loadLocked, set, emit, hmem, hf, it, value, secs, w] at he ⊢ <;> simp [he]

/-- C3. When the Local Cache reports the up-to-date entry `it` for the key, `load` returns `nil`,
leaves the Remote Store and the Local Cache as they were and calls neither the load function
nor the Remote Store nor `mem.Set`: its calls are lock, `UpToDate`, then `clone(it.Object, obj)`
exactly when `sync` is set, then unlock. The destination object holds the result of that `clone`
when `sync` is set and is untouched otherwise. -/
theorem load_up_to_date (d : Deps Obj Err M R) (now : Int) (c : RedisCache Obj Err M R)
    (key : String) (obj : Obj) (ttl : Int) (lazy : Bool) (f : LoadFunc Obj Err) (sync : Bool)
    (it : Item Obj) (hmem : d.UpToDate c.mem key = some it) :
    (c.load d now key obj ttl lazy f sync).1.1 = none ∧
    (c.load d now key obj ttl lazy f sync).1.2 = (if sync then d.clone it.Object obj else obj) ∧
    (c.load d now key obj ttl lazy f sync).2.pool = c.pool ∧
    (c.load d now key obj ttl lazy f sync).2.mem = c.mem ∧
    callsSince c (c.load d now key obj ttl lazy f sync).2 =
      [.Lock (c.getMutex key).1, .UpToDate key] ++ (if sync then [.clone it.Object] else []) ++
        [.Unlock (c.getMutex key).1] ∧
    (Event.clone it.Object ∈ callsSince c (c.load d now key obj ttl lazy f sync).2 ↔
      sync = true) := by
  have hlog : (c.load d now key obj ttl lazy f sync).2.log = c.log ++
      ([.Lock (c.getMutex key).1, .UpToDate key] ++ (if sync then [.clone it.Object] else []) ++
        [.Unlock (c.getMutex key).1]) := by
    cases sync <;> simp [load, loadLocked, emit, hmem]
  have hcalls := callsSince_of_log_eq c _ _ hlog
  refine ⟨?_, ?_, ?_, ?_, hcalls, ?_⟩
  · cases sync <;> simp [load, loadLocked, emit, hmem]
  · cases sync <;> simp [load, loadLocked, emit, hmem]
  · cases sync <;> simp [load, loadLocked, emit, hmem]
  · cases sync <;> simp [load, loadLocked, emit, hmem]
  · rw [hcalls]; cases sync <;> simp

/-! ## `Get` -/

/-- C7. When the Local Cache reports the up-to-date entry `v` for the key, `Get` returns
`(v, true)`; its calls are read-lock, `UpToDate`, read-unlock, so the Remote Store is not read,
and the Remote Store and the Local Cache are left as they were, whatever the Remote Store
holds. -/
theorem Get_up_to_date [DecidableEq Err] (d : Deps Obj Err M R) (c : RedisCache Obj Err M R)
    (key : String) (obj : Obj) (v : Item Obj) (hmem : d.UpToDate c.mem key = some v) :
    (c.Get d key obj).1 = (some v, true) ∧
    (c.Get d key obj).2.pool = c.pool ∧
    (c.Get d key obj).2.mem = c.mem ∧
    callsSince c (c.Get d key obj).2 =
      [.RLock (c.getMutex key).1, .UpToDate key, .RUnlock (c.getMutex key).1] ∧
    Event.RedisGetString key ∉ callsSince c (c.Get d key obj).2 ∧
    (∀ k it, Event.memSet k it ∉ callsSince c (c.Get d key obj).2) := by
  have hlog : (c.Get d key obj).2.log = c.log ++
      [.RLock (c.getMutex key).1, .UpToDate key, .RUnlock (c.getMutex key).1] := by
    simp [Get, GetLocked, emit, hmem]
  have hcalls := callsSince_of_log_eq c _ _ hlog
  refine ⟨?_, ?_, ?_, hcalls, ?_, ?_⟩
  · simp [Get, GetLocked, emit, hmem]
  · simp [Get, GetLocked, emit, hmem]
  · simp [Get, GetLocked, emit, hmem]
  · rw [hcalls]; simp
  · intro k it; rw [hcalls]; simp

/-- C6. When the Local Cache has no up-to-date entry for the key and the remote read reports
`redis.ErrNil`, or returns an empty payload, or fails with another error, or returns a payload
that `json.Unmarshal` rejects, `Get` returns `(nil, false)` and does not call `mem.Set`: the Local
Cache is unchanged. `hnil` is the contract of the Remote Store helper that a `redis.ErrNil`
result carries the empty string. -/
theorem Get_miss [DecidableEq Err] (d : Deps Obj Err M R) (c : RedisCache Obj Err M R)
    (key : String) (obj : Obj) (hmem : d.UpToDate c.mem key = none)
    (hnil : (d.RedisGetString c.pool key).2 = some d.ErrNil → (d.RedisGetString c.pool key).1 = "")
    (hcase : (d.RedisGetString c.pool key).2 = some d.ErrNil ∨
      (d.RedisGetString c.pool key).1 = "" ∨
      (∃ e, (d.RedisGetString c.pool key).2 = some e ∧ e ≠ d.ErrNil) ∨
      (d.Unmarshal (d.RedisGetString c.pool key).1
        { Object := obj, Expiration := 0, Lazy := false }).2 ≠ none) :
    (c.Get d key obj).1 = (none, false) ∧
    (c.Get d key obj).2.mem = c.mem ∧
    (c.Get d key obj).2.pool = c.pool ∧
    callsSince c (c.Get d key obj).2 =
      [.RLock (c.getMutex key).1, .UpToDate key, .RedisGetString key,
        .RUnlock (c.getMutex key).1] ∧
    (∀ k it, Event.memSet k it ∉ callsSince c (c.Get d key obj).2) := by
  have hres : GetLocked d ((c.getMutex key).2.emit (.RLock (c.getMutex key).1)) key obj =
      ((none, false), (((c.getMutex key).2.emit (.RLock (c.getMutex key).1)).emit
        (.UpToDate key)).emit (.RedisGetString key)) := by
    simp only [GetLocked, emit, getMutex_mem, getMutex_pool, hmem]
    by_cases h1 : (d.RedisGetString c.pool key).2 ≠ none ∧
        (d.RedisGetString c.pool key).2 ≠ some d.ErrNil
    · rw [if_pos h1]
    · rw [if_neg h1]
      by_cases h2 : (d.RedisGetString c.pool key).1 = ""
      · rw [if_pos h2]
      · rw [if_neg h2]
        by_cases h3 : (d.Unmarshal (d.RedisGetString c.pool key).1
            { Object := obj, Expiration := 0, Lazy := false }).2 ≠ none
        · rw [if_pos h3]
        · exfalso
          rcases hcase with h | h | ⟨e, he, hne⟩ | h
          · exact h2 (hnil h)
          · exact h2 h
          · exact h1 ⟨by simp [he], by simp [he, hne]⟩
          · exact h3 h
  have hlog : (c.Get d key obj).2.log = c.log ++
      [.RLock (c.getMutex key).1, .UpToDate key, .RedisGetString key,
        .RUnlock (c.getMutex key).1] := by
    simp only [Get]; rw [hres]; simp [emit]
  have hcalls := callsSince_of_log_eq c _ _ hlog
  refine ⟨?_, ?_, ?_, hcalls, ?_⟩
  · simp only [Get]; rw [hres]
  · simp only [Get]; rw [hres]; simp [emit]
  · simp only [Get]; rw [hres]; simp [emit]
  · intro k it; rw [hcalls]; simp

/-- C8. Round trip. Assume that decoding the encoding of `it` into the destination yields `it`
without error (`hcodec`), that the codec rejects the empty input (`hempty`), that the Remote
Store returns, for a key, the value last written under it (`hstore`, the contract of
`RedisGetString` after `RedisSetString`), and that the Local Cache has no up-to-date entry for
`key` (`hmem`, on the Local Cache before `Set`, which `Set` does not touch). Then `Set(key, it)`
followed by `Get(key, dest)` returns `it` itself (so `Object`, `Expiration` and `Lazy` agree)
with `found = true`; the Remote Store is the one `Set` wrote, the Local Cache is the old one
after `mem.Set(key, it)`, and the calls of the two methods are the write of `Set` with the
encoding of `it`, then the read and the `mem.Set(key, it)` of `Get`. -/
theorem Set_Get_round_trip [DecidableEq Err] (d : Deps Obj Err M R) (now : Int)
    (c : RedisCache Obj Err M R) (key : String) (it : Item Obj) (dest : Obj)
    (hcodec : d.Unmarshal (d.Marshal it).1 { Object := dest, Expiration := 0, Lazy := false } =
      (it, none))
    (hempty : ∀ it0, (d.Unmarshal "" it0).2 ≠ none)
    (hstore : ∀ r k v t, d.RedisGetString (d.RedisSetString r k v t).1 k = (v, none))
    (hmem : d.UpToDate c.mem key = none) :
    ((c.Set d now key it).Get d key dest).1 = (some it, true) ∧
    ((c.Set d now key it).Get d key dest).2.mem = d.memSet c.mem key it ∧
    ((c.Set d now key it).Get d key dest).2.pool =
      (d.RedisSetString c.pool key (d.Marshal it).1
        (Int.tdiv (wrapInt64 (it.Expiration - now)) Second)).1 ∧
    callsSince c ((c.Set d now key it).Get d key dest).2 =
      [.Lock (c.getMutex key).1,
        .RedisSetString key (d.Marshal it).1 (Int.tdiv (wrapInt64 (it.Expiration - now)) Second),
        .Unlock (c.getMutex key).1,
        .RLock ((c.Set d now key it).getMutex key).1, .UpToDate key, .RedisGetString key,
        .memSet key it, .RUnlock ((c.Set d now key it).getMutex key).1] := by
  have hne : (d.Marshal it).1 ≠ "" := by
    intro h
    have := hempty { Object := dest, Expiration := 0, Lazy := false }
    rw [h] at hcodec
    simp [hcodec] at this
  have hpool : (c.Set d now key it).pool =
      (d.RedisSetString c.pool key (d.Marshal it).1
        (Int.tdiv (wrapInt64 (it.Expiration - now)) Second)).1 := by
    simp [Set, set, emit]
  have hmem1 : (c.Set d now key it).mem = c.mem := by
    simp [Set, set, emit]
  have hlog1 : (c.Set d now key it).log = c.log ++
      [.Lock (c.getMutex key).1,
        .RedisSetString key (d.Marshal it).1 (Int.tdiv (wrapInt64 (it.Expiration - now)) Second),
        .Unlock (c.getMutex key).1] := by
    simp [Set, set, emit]
  have hread : d.RedisGetString (c.Set d now key it).pool key = ((d.Marshal it).1, none) := by
    rw [hpool]; exact hstore _ _ _ _
  have hmem2 : d.UpToDate (c.Set d now key it).mem key = none := by
    rw [hmem1]; exact hmem
  have hlog : ((c.Set d now key it).Get d key dest).2.log = (c.Set d now key it).log ++
      [.RLock ((c.Set d now key it).getMutex key).1, .UpToDate key, .RedisGetString key,
        .memSet key it, .RUnlock ((c.Set d now key it).getMutex key).1] := by
    simp [Get, GetLocked, emit, hmem2, hread, hne, hcodec]
  refine ⟨?_, ?_, ?_, ?_⟩
  · simp [Get, GetLocked, emit, hmem2, hread, hne, hcodec]
  · rw [← hmem1]
    simp [Get, GetLocked, emit, hmem2, hread, hne, hcodec]
  · rw [← hpool]
    simp [Get, GetLocked, emit, hmem2, hread, hne, hcodec]
  · apply callsSince_of_log_eq
    rw [hlog, hlog1]
    simp

/-! ## `Set` and `set` -/

theorem wrapInt64_of_isInt64 (x : Int) (h : isInt64 x) : wrapInt64 x = x := by
  unfold isInt64 minInt64 maxInt64 at h
  unfold wrapInt64
  omega

theorem wrapInt64_sub_wrapInt64 (a b : Int) : wrapInt64 (wrapInt64 a - b) = wrapInt64 (a - b) := by
  unfold wrapInt64
  omega

/-- C9, as the code has it. `Set` makes exactly one remote write, for the key, and its TTL
argument is the quotient, truncated toward zero, of the `int64` difference `Expiration - now`
(reduced to 64 bits) by `1_000_000_000`. When the exact difference is an `int64` this is the
quotient of the exact difference. For `Expiration = now + 5s` the TTL is `5`; when `Expiration`
was fixed at `t0 + 5s` and the clock read by `Set` is at most one second after `t0`, the TTL is
`4` or `5`. -/
theorem Set_ttl (d : Deps Obj Err M R) (now : Int) (c : RedisCache Obj Err M R)
    (key : String) (it : Item Obj) :
    callsSince c (c.Set d now key it) =
      [.Lock (c.getMutex key).1,
        .RedisSetString key (d.Marshal it).1 (Int.tdiv (wrapInt64 (it.Expiration - now)) Second),
        .Unlock (c.getMutex key).1] ∧
    (isInt64 (it.Expiration - now) →
      Int.tdiv (wrapInt64 (it.Expiration - now)) Second = Int.tdiv (it.Expiration - now) Second) ∧
    (it.Expiration = wrapInt64 (now + 5 * Second) →
      Int.tdiv (wrapInt64 (it.Expiration - now)) Second = 5) ∧
    (∀ t0, t0 ≤ now → now ≤ t0 + Second →
      it.Expiration = wrapInt64 (t0 + 5 * Second) →
      Int.tdiv (wrapInt64 (it.Expiration - now)) Second = 4 ∨
      Int.tdiv (wrapInt64 (it.Expiration - now)) Second = 5) := by
  have hlog : (c.Set d now key it).log = c.log ++
      [.Lock (c.getMutex key).1,
        .RedisSetString key (d.Marshal it).1 (Int.tdiv (wrapInt64 (it.Expiration - now)) Second),
        .Unlock (c.getMutex key).1] := by
    simp [Set, set, emit]
  refine ⟨callsSince_of_log_eq c _ _ hlog, ?_, ?_, ?_⟩
  · intro h
    rw [wrapInt64_of_isInt64 _ h]
  · intro h
    have h5 : wrapInt64 (it.Expiration - now) = 5000000000 := by
      rw [h, wrapInt64_sub_wrapInt64]
      unfold wrapInt64 Second
      omega
    rw [h5]
    decide
  · intro t0 h1 h2 h
    have hd : 4000000000 ≤ wrapInt64 (it.Expiration - now) ∧
        wrapInt64 (it.Expiration - now) ≤ 5000000000 := by
      rw [h, wrapInt64_sub_wrapInt64]
      unfold Second at h2
      unfold wrapInt64 Second
      omega
    rw [Int.tdiv_eq_ediv (by omega) (by decide)]
    unfold Second
    omega

end RedisCache

/-! ## The Key Lock Registry -/

namespace RedisCache

theorem lookup_cons_some (m : List (String × Nat)) (k key : String) (x v : Nat)
    (h : List.lookup k ((key, v) :: m) = some x) :
    (k = key ∧ x = v) ∨ (k ≠ key ∧ m.lookup k = some x) := by
  rw [List.lookup_cons] at h
  by_cases hk : k = key
  · subst hk
    simp at h
    exact Or.inl ⟨rfl, h.symm⟩
  · have hb : (k == key) = false := by simpa using hk
    rw [hb] at h
    exact Or.inr ⟨hk, h⟩

theorem getMutex_of_lookup_some (c : RedisCache Obj Err M R) (key : String) (x : Nat)
    (h : c.muxm.lookup key = some x) :
    c.getMutex key = (x, { c with fresh := c.fresh + 1 }) := by
  simp [getMutex, LoadOrStore, h]

theorem getMutex_of_lookup_none (c : RedisCache Obj Err M R) (key : String)
    (h : c.muxm.lookup key = none) :
    c.getMutex key =
      (c.fresh, { c with muxm := (key, c.fresh) :: c.muxm, fresh := c.fresh + 1 }) := by
  simp [getMutex, LoadOrStore, h]

/-- The mutex `getMutex` returns is the one registered for the key afterwards. -/
theorem getMutex_registered (c : RedisCache Obj Err M R) (key : String) :
    (c.getMutex key).2.muxm.lookup key = some (c.getMutex key).1 := by
  cases h : c.muxm.lookup key with
  | none => rw [getMutex_of_lookup_none c key h]; simp [List.lookup_cons]
  | some x => rw [getMutex_of_lookup_some c key x h]; exact h

/-- A registered mutex stays registered, unchanged, across `getMutex`. -/
theorem getMutex_keeps (c : RedisCache Obj Err M R) (key k : String) (x : Nat)
    (hk : c.muxm.lookup k = some x) : (c.getMutex key).2.muxm.lookup k = some x := by
  cases h : c.muxm.lookup key with
  | some y => rw [getMutex_of_lookup_some c key y h]; exact hk
  | none =>
    rw [getMutex_of_lookup_none c key h]
    have hne : k ≠ key := by
      intro e; rw [e, h] at hk; cases hk
    have hb : (k == key) = false := by simpa using hne
    simp only [List.lookup_cons, hb]
    exact hk

theorem getMutex_inv (c : RedisCache Obj Err M R) (key : String) (hc : RegistryInv c) :
    RegistryInv (c.getMutex key).2 := by
  obtain ⟨h1, h2⟩ := hc
  cases h : c.muxm.lookup key with
  | some y =>
    rw [getMutex_of_lookup_some c key y h]
    exact ⟨fun k x hk => Nat.lt_succ_of_lt (h1 k x hk), h2⟩
  | none =>
    rw [getMutex_of_lookup_none c key h]
    refine ⟨?_, ?_⟩
    · intro k x hk
      rcases lookup_cons_some _ _ _ _ _ hk with ⟨_, hx⟩ | ⟨_, hx⟩
      · rw [hx]; exact Nat.lt_succ_self _
      · exact Nat.lt_succ_of_lt (h1 k x hx)
    · intro k1 k2 x hk1 hk2
      rcases lookup_cons_some _ _ _ _ _ hk1 with ⟨e1, x1⟩ | ⟨_, x1⟩ <;>
        rcases lookup_cons_some _ _ _ _ _ hk2 with ⟨e2, x2⟩ | ⟨_, x2⟩
      · rw [e1, e2]
      · rw [x1] at x2; exact absurd (h1 k2 _ x2) (Nat.lt_irrefl _)
      · rw [x2] at x1; exact absurd (h1 k1 _ x1) (Nat.lt_irrefl _)
      · exact h2 k1 k2 x x1 x2

theorem GetLocked_registry [DecidableEq Err] (d : Deps Obj Err M R) (c : RedisCache Obj Err M R)
    (key : String) (obj : Obj) :
    (GetLocked d c key obj).2.muxm = c.muxm ∧ (GetLocked d c key obj).2.fresh = c.fresh := by
  unfold GetLocked
  simp only [emit]
  split
  · exact ⟨rfl, rfl⟩
  · split_ifs <;> exact ⟨rfl, rfl⟩

theorem set_registry (d : Deps Obj Err M R) (now : Int) (c : RedisCache Obj Err M R)
    (key : String) (it : Item Obj) :
    (c.set d now key it).2.muxm = c.muxm ∧ (c.set d now key it).2.fresh = c.fresh :=
  ⟨rfl, rfl⟩

theorem loadLocked_registry (d : Deps Obj Err M R) (now : Int) (c : RedisCache Obj Err M R)
    (key : String) (obj : Obj) (ttl : Int) (lazy : Bool) (f : LoadFunc Obj Err) (sync : Bool) :
    (loadLocked d now c key obj ttl lazy f sync).2.muxm = c.muxm ∧
    (loadLocked d now c key obj ttl lazy f sync).2.fresh = c.fresh := by
  unfold loadLocked
  simp only [emit, set]
  split
  · split_ifs <;> exact ⟨rfl, rfl⟩
  · split
    · exact ⟨rfl, rfl⟩
    · split
      · split_ifs <;> exact ⟨rfl, rfl⟩
      · split_ifs <;> exact ⟨rfl, rfl⟩

/-- Each call leaves the mutex map and the allocator as they were, or as one `getMutex`
leaves them. -/
theorem step_registry [DecidableEq Err] (d : Deps Obj Err M R) (c : RedisCache Obj Err M R)
    (op : Op Obj Err) :
    ((step d c op).muxm = c.muxm ∧ (step d c op).fresh = c.fresh) ∨
    ∃ key, (step d c op).muxm = (c.getMutex key).2.muxm ∧
      (step d c op).fresh = (c.getMutex key).2.fresh := by
  cases op with
  | getMutex key => exact Or.inr ⟨key, rfl, rfl⟩
  | Get key obj =>
    refine Or.inr ⟨key, ?_, ?_⟩
    · exact (GetLocked_registry d _ key obj).1
    · exact (GetLocked_registry d _ key obj).2
  | Set now key it => exact Or.inr ⟨key, rfl, rfl⟩
  | load now key obj ttl lazy f sync =>
    refine Or.inr ⟨key, ?_, ?_⟩
    · exact (loadLocked_registry d now _ key obj ttl lazy f sync).1
    · exact (loadLocked_registry d now _ key obj ttl lazy f sync).2
  | Delete keyPattern => exact Or.inl ⟨rfl, rfl⟩

theorem step_inv [DecidableEq Err] (d : Deps Obj Err M R) (c : RedisCache Obj Err M R)
    (op : Op Obj Err) (hc : RegistryInv c) : RegistryInv (step d c op) := by
  rcases step_registry d c op with ⟨hm, hf⟩ | ⟨key, hm, hf⟩
  · unfold RegistryInv; rw [hm, hf]; exact hc
  · have := getMutex_inv c key hc
    unfold RegistryInv at this ⊢; rw [hm, hf]; exact this

theorem step_keeps [DecidableEq Err] (d : Deps Obj Err M R) (c : RedisCache Obj Err M R)
    (op : Op Obj Err) (k : String) (x : Nat) (hk : c.muxm.lookup k = some x) :
    (step d c op).muxm.lookup k = some x := by
  rcases step_registry d c op with ⟨hm, _⟩ | ⟨key, hm, _⟩
  · rw [hm]; exact hk
  · rw [hm]; exact getMutex_keeps c key k x hk

theorem run_inv [DecidableEq Err] (d : Deps Obj Err M R) (ops : List (Op Obj Err))
    (c : RedisCache Obj Err M R) (hc : RegistryInv c) : RegistryInv (run d c ops) := by
  induction ops generalizing c with
  | nil => exact hc
  | cons op ops ih => exact ih (step d c op) (step_inv d c op hc)

theorem run_keeps [DecidableEq Err] (d : Deps Obj Err M R) (ops : List (Op Obj Err))
    (c : RedisCache Obj Err M R) (k : String) (x : Nat) (hk : c.muxm.lookup k = some x) :
    (run d c ops).muxm.lookup k = some x := by
  induction ops generalizing c with
  | nil => exact hk
  | cons op ops ih => exact ih (step d c op) (step_keeps d c op k x hk)

theorem NewRedisCache_inv (p : R) (m : M) :
    RegistryInv (NewRedisCache p m : RedisCache Obj Err M R) := by
  refine ⟨?_, ?_⟩
  · intro k x h; simp [NewRedisCache] at h
  · intro k1 k2 x h; simp [NewRedisCache] at h

/-- C10. On a facade built by `NewRedisCache`, after any calls `ops1`, take `getMutex(k1)`, then
any calls `ops2` (of `getMutex`, `Get`, `Set`, `load`, `Delete`), then `getMutex(k2)`. The two
results are the same mutex when `k1 = k2` and different mutexes when `k1 ≠ k2`; the mutex
returned for `k1` is the registered one; and every entry of the mutex map present before `ops2`
is present, with the same mutex, after `ops2`. -/
theorem getMutex_registry [DecidableEq Err] (d : Deps Obj Err M R) (p : R) (m : M)
    (ops1 ops2 : List (Op Obj Err)) (k1 k2 : String) :
    let c1 := run d (NewRedisCache p m) ops1
    let g1 := c1.getMutex k1
    let g2 := (run d g1.2 ops2).getMutex k2
    (k1 = k2 → g1.1 = g2.1) ∧
    (k1 ≠ k2 → g1.1 ≠ g2.1) ∧
    g1.2.muxm.lookup k1 = some g1.1 ∧
    (∀ k x, c1.muxm.lookup k = some x → (run d c1 ops2).muxm.lookup k = some x) := by
  intro c1 g1 g2
  have hinv1 : RegistryInv g1.2 := getMutex_inv c1 k1 (run_inv d ops1 _ (NewRedisCache_inv p m))
  have hreg1 : g1.2.muxm.lookup k1 = some g1.1 := getMutex_registered c1 k1
  have hinv2 : RegistryInv (run d g1.2 ops2) := run_inv d ops2 _ hinv1
  have hkeep : (run d g1.2 ops2).muxm.lookup k1 = some g1.1 := run_keeps d ops2 _ k1 _ hreg1
  refine ⟨?_, ?_, hreg1, fun k x hk => run_keeps d ops2 c1 k x hk⟩
  · intro e
    subst e
    have := getMutex_of_lookup_some _ k1 _ hkeep
    simp only [g2, this]
  · intro hne e
    cases h : (run d g1.2 ops2).muxm.lookup k2 with
    | some y =>
      have h2 := getMutex_of_lookup_some _ k2 y h
      have hy : g2.1 = y := by simp only [g2, h2]
      rw [hy] at e
      rw [e] at hkeep
      exact hne (hinv2.2 k1 k2 y hkeep h)
    | none =>
      have h2 := getMutex_of_lookup_none _ k2 h
      have hy : g2.1 = (run d g1.2 ops2).fresh := by simp only [g2, h2]
      rw [hy] at e
      have := hinv2.1 k1 _ hkeep
      rw [e] at this
      exact Nat.lt_irrefl _ this

end RedisCache

/-- C9, counterexample. With the clock at `1_800_000_000_000_000_000` and an Item whose
`Expiration` is the least `int64`, the subtraction overflows: `Set` passes the TTL `7423372036`,
whereas the quotient of the exact difference is `-11023372036`. -/
theorem Set_ttl_exact_quotient_fails :
    ¬ (∀ (now : Int) (it : Item Nat), isInt64 now → isInt64 it.Expiration →
        ∀ value ttl, Event.RedisSetString "k" value ttl ∈
            RedisCache.callsSince emptyCache (emptyCache.Set listDeps now "k" it) →
          ttl = Int.tdiv (it.Expiration - now) Second) := by
  intro h
  have h1 := h 1800000000000000000 { Object := 0, Expiration := minInt64, Lazy := false }
    (by decide) (by decide) "" 7423372036 (by decide)
  revert h1
  decide

/-- C5, the code at a failing write. With a Remote Store that refuses the write, `set` returns
the error, and `Set`, which has no result, ends in the state `set` reaches followed by the
unlock: the same state and calls as with a Remote Store that accepts the write, up to the
content of the store, so the error does not reach the caller of `Set`. -/
theorem Set_drops_error :
    (emptyCache.set downDeps 0 "k" sampleItem).1 = some "dial tcp: connection refused" ∧
    emptyCache.Set downDeps 0 "k" sampleItem =
      { pool := [], muxm := [("k", 0)], mem := [], fresh := 1,
        log := [.Lock 0, .RedisSetString "k" "a" 5, .Unlock 0] } ∧
    (emptyCache.Set listDeps 0 "k" sampleItem).log =
      (emptyCache.Set downDeps 0 "k" sampleItem).log := by
  refine ⟨by decide, rfl, by decide⟩

/-! ## The theorems at concrete inputs -/

/-- C1 at a failing load function on an empty facade. -/
theorem load_loadFunc_error_witness :
    listDeps.UpToDate emptyCache.mem "k" = none ∧
    (loadFails ()).2 = some "backend down" ∧
    (emptyCache.load listDeps 0 "k" 0 5 false loadFails true).1 = (some "backend down", 0) ∧
    (emptyCache.load listDeps 0 "k" 0 5 false loadFails true).2.pool = emptyCache.pool ∧
    (emptyCache.load listDeps 0 "k" 0 5 false loadFails true).2.mem = emptyCache.mem :=
  have h := RedisCache.load_loadFunc_error listDeps 0 emptyCache "k" 0 5 false loadFails true
    "backend down" (by decide) rfl
  ⟨by decide, rfl, h.1, h.2.1, h.2.2.1⟩

/-- C2 at a successful load on an empty facade: the Item is written to both tiers. -/
theorem load_write_through_witness :
    listDeps.UpToDate emptyCache.mem "k" = none ∧
    loadSeven () = (7, none) ∧
    (emptyCache.load listDeps 0 "k" 0 5 false loadSeven true).1.1 = none ∧
    (emptyCache.load listDeps 0 "k" 0 5 false loadSeven true).2.mem = [("k", sampleItem)] ∧
    (emptyCache.load listDeps 0 "k" 0 5 false loadSeven true).2.pool = [("k", "a")] :=
  have h := RedisCache.load_write_through listDeps 0 emptyCache "k" 0 5 false loadSeven true 7
    (by decide) rfl
  ⟨by decide, rfl, (h.2.2 rfl).1, (h.2.2 rfl).2.1, h.1⟩

/-- C3 at a facade whose Local Cache is up to date for the key. -/
theorem load_up_to_date_witness :
    listDeps.UpToDate warmCache.mem "k" = some sampleItem ∧
    (warmCache.load listDeps 0 "k" 0 5 false loadFails true).1 = (none, 7) ∧
    (warmCache.load listDeps 0 "k" 0 5 false loadFails false).1 = (none, 0) :=
  have h1 := RedisCache.load_up_to_date listDeps 0 warmCache "k" 0 5 false loadFails true
    sampleItem (by decide)
  have h2 := RedisCache.load_up_to_date listDeps 0 warmCache "k" 0 5 false loadFails false
    sampleItem (by decide)
  ⟨by decide, Prod.ext h1.1 h1.2.1, Prod.ext h2.1 h2.2.1⟩

/-- C7 at a facade whose Local Cache is up to date for the key. -/
theorem Get_up_to_date_witness :
    listDeps.UpToDate warmCache.mem "k" = some sampleItem ∧
    (warmCache.Get listDeps "k" 0).1 = (some sampleItem, true) :=
  ⟨by decide, (RedisCache.Get_up_to_date listDeps warmCache "k" 0 sampleItem (by decide)).1⟩

/-- C6 at an empty Remote Store, which answers `redis.ErrNil` with the empty string. -/
theorem Get_miss_witness :
    listDeps.UpToDate emptyCache.mem "k" = none ∧
    (listDeps.RedisGetString emptyCache.pool "k").2 = some listDeps.ErrNil ∧
    (emptyCache.Get listDeps "k" 0).1 = (none, false) ∧
    (emptyCache.Get listDeps "k" 0).2.mem = emptyCache.mem :=
  have h := RedisCache.Get_miss listDeps emptyCache "k" 0 (by decide) (fun _ => by decide)
    (Or.inl (by decide))
  ⟨by decide, by decide, h.1, h.2.1⟩

/-- C8 at `sampleItem` on an empty facade, with the association-list store, which returns
the value last written under a key. -/
theorem Set_Get_round_trip_witness :
    listDeps.Unmarshal (listDeps.Marshal sampleItem).1
      { Object := 0, Expiration := 0, Lazy := false } = (sampleItem, none) ∧
    (∀ r k v t, listDeps.RedisGetString (listDeps.RedisSetString r k v t).1 k = (v, none)) ∧
    listDeps.UpToDate emptyCache.mem "k" = none ∧
    ((emptyCache.Set listDeps 0 "k" sampleItem).Get listDeps "k" 0).1 = (some sampleItem, true) ∧
    ((emptyCache.Set listDeps 0 "k" sampleItem).Get listDeps "k" 0).2.mem =
      [("k", sampleItem)] :=
  have hstore : ∀ (r : List (String × String)) (k v : String) (t : Int),
      listDeps.RedisGetString (listDeps.RedisSetString r k v t).1 k = (v, none) :=
    fun r k v t => by simp [listDeps, List.lookup_cons]
  have h := RedisCache.Set_Get_round_trip listDeps 0 emptyCache "k" sampleItem 0 (by decide)
    (fun it0 => by simp [listDeps]) hstore (by decide)
  ⟨by decide, hstore, by decide, h.1, h.2.1⟩

/-- C9 at an Item expiring five seconds after the clock reading. -/
theorem Set_ttl_witness :
    sampleItem.Expiration = wrapInt64 (0 + 5 * Second) ∧
    Int.tdiv (wrapInt64 (sampleItem.Expiration - 0)) Second = 5 :=
  ⟨by decide, (RedisCache.Set_ttl listDeps 0 emptyCache "k" sampleItem).2.2.1 (by decide)⟩

/-- C10 at two different keys, with calls of `Set`, `Get` and `Delete` around. -/
theorem getMutex_registry_witness :
    ("a" : String) ≠ "b" ∧
    ((RedisCache.run listDeps emptyCache [.Set 0 "a" sampleItem]).getMutex "a").1 ≠
      ((RedisCache.run listDeps
        ((RedisCache.run listDeps emptyCache [.Set 0 "a" sampleItem]).getMutex "a").2
        [.Get "b" 0, .Delete "a"]).getMutex "b").1 :=
  ⟨by decide,
    (RedisCache.getMutex_registry listDeps [] [] [.Set 0 "a" sampleItem]
      [.Get "b" 0, .Delete "a"] "a" "b").2.1 (by decide)⟩

end Cache
